import Mathlib

/-!
Verification of the `CondensedMemoryBlock` conversation-memory condenser
from the multi-turn-memory notebook, together with a spec-level model of
the surrounding `Memory` session (flush / render), which lives in the
external `llama-index-core` library.

The embedding mirrors the Python code:

* `renderMessage` is the per-message string construction inside
  `CondensedMemoryBlock._aput` (role tag, newline-joined text blocks,
  filtered `additional_kwargs`, closing tag).
* `evict` is the trailing `while message_length > self.token_limit`
  loop that repeatedly drops `current_memory[0]`.
* `aput` is `_aput`: append one rendered string per message, then evict.
* `agetS` is `_aget`: return `"\n".join(self.current_memory)` without
  touching the state.
* `aputE` re-runs `_aput` with a fallible tokenizer and records the
  observable state at the point an exception would propagate.

The tokenizer (`tiktoken`) is external; it is a parameter
`tok : String → Nat` giving `len(tokenizer.encode s)`.
-/

namespace CondensedMemory

/-- Message roles, as in `llama_index.core.llms.MessageRole`. -/
inductive Role
  | user
  | assistant
  | tool
  | system
deriving DecidableEq, Repr

/-- The string produced by Python `f"{message.role}"` for each role,
as recorded in the notebook's outputs (`MessageRole.USER`, ...). -/
def Role.str : Role → String
  | .user => "MessageRole.USER"
  | .assistant => "MessageRole.ASSISTANT"
  | .tool => "MessageRole.TOOL"
  | .system => "MessageRole.SYSTEM"

/-- A content block of a `ChatMessage`: either a `TextBlock` or some
non-text block (image, audio, ...), which `_aput` ignores.  The payload
of `other` is an opaque description of the non-text content. -/
inductive ContentBlock
  | text (s : String)
  | other (payload : String)
deriving DecidableEq, Repr

/-- The `llama_index.core.llms.ChatMessage` type, restricted to the fields
`_aput` reads: `role`, `blocks`, `additional_kwargs`.  The kwargs
mapping is an insertion-ordered association list (Python dicts preserve
insertion order); values are kept as their Python `repr` strings. -/
structure ChatMessage where
  role : Role
  blocks : List ContentBlock
  additional_kwargs : List (String × String)
deriving DecidableEq, Repr

/-- Python `block.text` when `isinstance(block, TextBlock)`, else nothing. -/
def textOf : ContentBlock → Option String
  | .text s => some s
  | .other _ => none

/-- The `isinstance(block, TextBlock)` test as a predicate. -/
def isTextBlock : ContentBlock → Bool
  | .text _ => true
  | .other _ => false

/-- Python `"\n".join(block.text for block in message.blocks if isinstance(block, TextBlock))`. -/
def textContents (m : ChatMessage) : String :=
  String.intercalate "\n" (m.blocks.filterMap textOf)

/-- Python `{key: val for key, val in message.additional_kwargs.items() if key != "session_id"}`. -/
def filteredKwargs (m : ChatMessage) : List (String × String) :=
  m.additional_kwargs.filter fun kv => kv.1 ≠ "session_id"

/-- Python `str` of the filtered kwargs dict, as interpolated by
`f"\n({kwargs})"`: `{'k1': v1, 'k2': v2}` with values already in repr
form.  (Braces and quotes are escaped per Lean string syntax.) -/
def reprKwargs (kvs : List (String × String)) : String :=
  "\x7b" ++
    String.intercalate ", "
      (kvs.map fun kv => "\x27" ++ kv.1 ++ "\x27: " ++ kv.2) ++
    "\x7d"

/-- The string `_aput` builds for one message, following the source's
incremental `memory_str` construction. -/
def renderMessage (m : ChatMessage) : String :=
  let memory_str := "<message role=" ++ m.role.str ++ ">"
  let memory_str :=
    if textContents m ≠ "" then memory_str ++ "\n" ++ textContents m else memory_str
  let memory_str :=
    if filteredKwargs m ≠ [] then
      memory_str ++ "\n(" ++ reprKwargs (filteredKwargs m) ++ ")"
    else memory_str
  memory_str ++ "\n</message>"

/-- The mutable state of a `CondensedMemoryBlock`: its stored strings
and its token budget. -/
structure BlockState where
  current_memory : List String
  token_limit : Nat
deriving DecidableEq, Repr

/-- Python `sum(len(self.tokenizer.encode(message)) for message in self.current_memory)`. -/
def totalTokens (tok : String → Nat) (l : List String) : Nat :=
  (l.map tok).sum

/-- The eviction loop of `_aput`:
`while message_length > self.token_limit: self.current_memory = self.current_memory[1:]`,
recomputing the total each time. -/
def evict (tok : String → Nat) (limit : Nat) : List String → List String
  | [] => []
  | x :: xs =>
    if totalTokens tok (x :: xs) > limit then evict tok limit xs else x :: xs

/-- Embeds `CondensedMemoryBlock._aput`: append `renderMessage` of each message
in order, then run the eviction loop. -/
def aput (tok : String → Nat) (st : BlockState) (msgs : List ChatMessage) : BlockState :=
  { st with
    current_memory :=
      evict tok st.token_limit (st.current_memory ++ msgs.map renderMessage) }

/-- Embeds `CondensedMemoryBlock._aget`, with the post-call state made
explicit: it returns `"\n".join(self.current_memory)` and performs no
mutation, so the post-state is the input state. -/
def agetS (st : BlockState) : String × BlockState :=
  (String.intercalate "\n" st.current_memory, st)

/-- The eviction loop again, additionally recording the evicted strings
in the order they are removed (first component) alongside the survivors
(second component). -/
def evictTrace (tok : String → Nat) (limit : Nat) : List String → List String × List String
  | [] => ([], [])
  | x :: xs =>
    if totalTokens tok (x :: xs) > limit then
      let p := evictTrace tok limit xs
      (x :: p.1, p.2)
    else ([], x :: xs)

/-- The eviction loop with an explicit iteration budget: `none` when
the budget runs out while the total still exceeds the limit.  Used to
state that the real loop performs at most `length` iterations. -/
def evictFuel (tok : String → Nat) (limit : Nat) : Nat → List String → Option (List String)
  | 0, l => if totalTokens tok l > limit then none else some l
  | fuel + 1, l =>
    if totalTokens tok l > limit then evictFuel tok limit fuel l.tail else some l

/-- Total token count with a fallible tokenizer (`none` = the tokenizer
raised on some string, scanning left to right as the Python `sum` does). -/
def totalTokensE (tok : String → Option Nat) : List String → Option Nat
  | [] => some 0
  | x :: xs =>
    match tok x, totalTokensE tok xs with
    | some n, some m => some (n + m)
    | _, _ => none

/-- The eviction loop with a fallible tokenizer.  The `Bool` is whether
an exception propagated; the list is the observable `current_memory` at
that point (in Python, mutations made before the raise persist). -/
def evictE (tok : String → Option Nat) (limit : Nat) : List String → Bool × List String
  | [] => (false, [])
  | x :: xs =>
    match totalTokensE tok (x :: xs) with
    | none => (true, x :: xs)
    | some n => if n > limit then evictE tok limit xs else (false, x :: xs)

/-- Embeds `_aput` with a fallible tokenizer.  The append loop makes no
tokenizer calls, so all messages are appended to `current_memory`
before the first `encode`; the `Bool` records whether a tokenizer
exception propagated, and the state is the block as the caller observes
it after the call (completed or aborted). -/
def aputE (tok : String → Option Nat) (st : BlockState) (msgs : List ChatMessage) :
    Bool × BlockState :=
  let p := evictE tok st.token_limit (st.current_memory ++ msgs.map renderMessage)
  (p.1, { st with current_memory := p.2 })

/-- The canonical rendered-turn form as the spec words it: a role tag
`<message role=ROLE>`, then the newline-joined text segments when
non-empty, then the auxiliary key-value data with the transport-only
key `session_id` removed when any keys remain, then the closing
`</message>`. -/
def canonicalForm (m : ChatMessage) : String :=
  "<message role=" ++ m.role.str ++ ">"
    ++ (if textContents m = "" then "" else "\n" ++ textContents m)
    ++ (if filteredKwargs m = [] then ""
        else "\n(" ++ reprKwargs (filteredKwargs m) ++ ")")
    ++ "\n</message>"

/-!
Spec-level model of the surrounding `Memory` session.  The `Memory`
class (`llama-index-core`) is not part of this repository's sources;
the notebook only configures and calls it.  The structures below are
modelled from the spec (sections 3, 4.1): a live window of turns plus
one Condensation Block, a flush that moves oldest turns one at a time
into the block until the live window's token sum is at or below
`chat_history_token_ratio × token_limit` or the window is empty, and a
render that emits the block's text as one synthetic turn followed by
the live turns.
-/

/-- Modelled from the spec: a `Session` of the Bounded Session Memory —
the live window (ordered turns) plus its Condensation Block.  The
`Memory` class holding this state is external to src/. -/
structure Session where
  live : List ChatMessage
  block : BlockState

/-- Modelled from the spec: token cost of a Turn = token cost of its
rendered string form. -/
def turnCost (tok : String → Nat) (m : ChatMessage) : Nat :=
  tok (renderMessage m)

/-- Modelled from the spec: total token cost of the live window. -/
def liveCost (tok : String → Nat) (live : List ChatMessage) : Nat :=
  (live.map (turnCost tok)).sum

/-- Modelled from the spec: the flush loop of `Memory` (external to
src/) — while the live window's token sum exceeds the threshold
`chat_history_token_ratio × token_limit` and the window is non-empty,
move the oldest turn into the Condensation Block via `_aput`. -/
def flushLoop (tok : String → Nat) (threshold : ℚ) (block : BlockState) :
    List ChatMessage → Session
  | [] => ⟨[], block⟩
  | t :: ts =>
    if (liveCost tok (t :: ts) : ℚ) > threshold then
      flushLoop tok threshold (aput tok block [t]) ts
    else ⟨t :: ts, block⟩

/-- Modelled from the spec: `flush(session_id)` with threshold
`chat_history_token_ratio × token_limit`. -/
def flushSession (tok : String → Nat) (ratio : ℚ) (token_limit : Nat) (s : Session) :
    Session :=
  flushLoop tok (ratio * token_limit) s.block s.live

/-- Modelled from the spec: `append` — turns go to the end of the live
window; overflow is handled by the subsequent flush. -/
def appendSession (s : Session) (msgs : List ChatMessage) : Session :=
  { s with live := s.live ++ msgs }

/-- One item of the rendered context: the synthetic condensation turn
(the block's `_aget` text) or a live turn. -/
inductive RenderedItem
  | condensed (s : String)
  | liveTurn (m : ChatMessage)
deriving DecidableEq, Repr

/-- Modelled from the spec: `render(session_id)` — the Condensation
Block's rendered text (when the block is non-empty) as a single
synthetic turn, followed by the live window's turns in order. -/
def renderSession (s : Session) : List RenderedItem :=
  (if s.block.current_memory = [] then []
   else [RenderedItem.condensed (agetS s.block).1])
    ++ s.live.map RenderedItem.liveTurn

/-!
Concrete inputs used for counterexamples and witnesses.  `lenTok` is a
deterministic stand-in tokenizer (one token per character), valid since
the spec only asks the tokenizer to be a deterministic
`count_tokens : string → integer`.
-/

/-- A deterministic tokenizer: one token per character. -/
def lenTok : String → Nat := String.length

/-- A tokenizer that raises on every input. -/
def failTok : String → Option Nat := fun _ => none

/-- A user turn whose rendered form costs exactly 50 `lenTok` tokens. -/
def oversizedMsg : ChatMessage :=
  ⟨Role.user, [ContentBlock.text "Bonjour"], []⟩

/-- The four turns of the spec's round-trip scenario. -/
def msgsLogan : List ChatMessage :=
  [⟨Role.user, [ContentBlock.text "Hello! My name is Logan"], []⟩,
   ⟨Role.assistant, [ContentBlock.text "Hello! How can I help you?"], []⟩,
   ⟨Role.user, [ContentBlock.text "What is the capital of France?"], []⟩,
   ⟨Role.assistant, [ContentBlock.text "The capital of France is Paris"], []⟩]

/-- A message with a non-text block and a `session_id` kwarg, as the
agent run in the notebook produces. -/
def toolMsg : ChatMessage :=
  ⟨Role.tool, [ContentBlock.text "1607.0", ContentBlock.other "image-payload"],
   [("session_id", "test-mem-01"), ("tool_call_id", "call_3eFX")]⟩

/-!
General lemmas about the eviction loop and the flush loop, shared by
the claim theorems below.
-/

theorem totalTokens_nil (tok : String → Nat) : totalTokens tok [] = 0 := rfl

theorem totalTokens_append (tok : String → Nat) (a b : List String) :
    totalTokens tok (a ++ b) = totalTokens tok a + totalTokens tok b := by
  simp [totalTokens]

theorem evict_total_le (tok : String → Nat) (limit : Nat) :
    ∀ l : List String, totalTokens tok (evict tok limit l) ≤ limit
  | [] => by simp [evict, totalTokens]
  | x :: xs => by
    rw [evict]
    by_cases h : totalTokens tok (x :: xs) > limit
    · simpa [h] using evict_total_le tok limit xs
    · simpa [h] using Nat.le_of_not_lt h

theorem evict_eq_drop (tok : String → Nat) (limit : Nat) :
    ∀ l : List String, ∃ k, evict tok limit l = l.drop k
  | [] => ⟨0, rfl⟩
  | x :: xs => by
    rw [evict]
    by_cases h : totalTokens tok (x :: xs) > limit
    · obtain ⟨k, hk⟩ := evict_eq_drop tok limit xs
      exact ⟨k + 1, by simpa [h] using hk⟩
    · exact ⟨0, by simp [h]⟩

theorem evict_of_le (tok : String → Nat) (limit : Nat) (l : List String)
    (h : totalTokens tok l ≤ limit) : evict tok limit l = l := by
  cases l with
  | nil => rfl
  | cons x xs => rw [evict, if_neg (Nat.not_lt.mpr h)]

theorem evictTrace_eq_take_drop (tok : String → Nat) (limit : Nat) :
    ∀ l : List String, ∃ k, evictTrace tok limit l = (l.take k, l.drop k)
  | [] => ⟨0, rfl⟩
  | x :: xs => by
    rw [evictTrace]
    by_cases h : totalTokens tok (x :: xs) > limit
    · obtain ⟨k, hk⟩ := evictTrace_eq_take_drop tok limit xs
      exact ⟨k + 1, by simp [h, hk]⟩
    · exact ⟨0, by simp [h]⟩

theorem evictTrace_snd (tok : String → Nat) (limit : Nat) :
    ∀ l : List String, (evictTrace tok limit l).2 = evict tok limit l
  | [] => rfl
  | x :: xs => by
    rw [evictTrace, evict]
    by_cases h : totalTokens tok (x :: xs) > limit
    · simpa [h] using evictTrace_snd tok limit xs
    · simp [h]

theorem totalTokensE_eq_none (tok : String → Option Nat) :
    ∀ l : List String, totalTokensE tok l = none ↔ ∃ s ∈ l, tok s = none
  | [] => by simp [totalTokensE]
  | x :: xs => by
    have ih := totalTokensE_eq_none tok xs
    rcases hx : tok x with _ | n <;> rcases hxs : totalTokensE tok xs with _ | m <;>
      rw [totalTokensE, hx, hxs]
    · exact iff_of_true rfl ⟨x, List.mem_cons_self x xs, hx⟩
    · exact iff_of_true rfl ⟨x, List.mem_cons_self x xs, hx⟩
    · obtain ⟨s, hs, hn⟩ := ih.mp hxs
      exact iff_of_true rfl ⟨s, List.mem_cons_of_mem x hs, hn⟩
    · refine iff_of_false (by simp) ?_
      rintro ⟨s, hs, hn⟩
      rcases List.mem_cons.mp hs with rfl | hmem
      · rw [hn] at hx; exact Option.noConfusion hx
      · rw [ih.mpr ⟨s, hmem, hn⟩] at hxs; exact Option.noConfusion hxs

theorem evictE_of_fail (tok : String → Option Nat) (limit : Nat) (l : List String)
    (h : ∃ s ∈ l, tok s = none) : evictE tok limit l = (true, l) := by
  cases l with
  | nil => simp at h
  | cons x xs =>
    rw [evictE]
    rw [(totalTokensE_eq_none tok (x :: xs)).mpr h]

theorem renderMessage_eq_canonicalForm (m : ChatMessage) :
    renderMessage m = canonicalForm m := by
  rw [renderMessage, canonicalForm]
  by_cases h1 : textContents m = "" <;> by_cases h2 : filteredKwargs m = [] <;>
    simp [h1, h2, String.append_assoc] <;> rfl

theorem filterMap_textOf_filter :
    ∀ bs : List ContentBlock, (bs.filter isTextBlock).filterMap textOf = bs.filterMap textOf
  | [] => rfl
  | b :: bs => by
    cases b <;> simp [isTextBlock, textOf, filterMap_textOf_filter bs]

theorem filteredKwargs_keys :
    ∀ kvs : List (String × String),
      (kvs.filter fun kv => kv.1 ≠ "session_id").map Prod.fst =
        (kvs.map Prod.fst).filter fun k => k ≠ "session_id"
  | [] => rfl
  | kv :: kvs => by
    have ih := filteredKwargs_keys kvs
    by_cases h : kv.1 = "session_id" <;> simp_all [List.filter_cons]

theorem liveCost_cons (tok : String → Nat) (t : ChatMessage) (ts : List ChatMessage) :
    liveCost tok (t :: ts) = turnCost tok t + liveCost tok ts := by
  simp [liveCost]

theorem flushLoop_flushes_all (tok : String → Nat) (threshold : ℚ) :
    ∀ (live : List ChatMessage) (block : BlockState),
      (∀ m ∈ live, threshold < (turnCost tok m : ℚ)) →
      totalTokens tok (block.current_memory ++ live.map renderMessage) ≤ block.token_limit →
      flushLoop tok threshold block live =
        ⟨[], { block with current_memory := block.current_memory ++ live.map renderMessage }⟩
  | [], block => by intro _ _; simp [flushLoop]
  | t :: ts, block => by
    intro hall hfit
    have hhead : threshold < (turnCost tok t : ℚ) := hall t (List.mem_cons_self t ts)
    have hmono : turnCost tok t ≤ liveCost tok (t :: ts) := by
      rw [liveCost_cons]; exact Nat.le_add_right _ _
    have hcond : (liveCost tok (t :: ts) : ℚ) > threshold :=
      lt_of_lt_of_le hhead (by exact_mod_cast hmono)
    have hstep : totalTokens tok (block.current_memory ++ [renderMessage t]) ≤
        block.token_limit := by
      refine le_trans ?_ hfit
      rw [totalTokens_append, totalTokens_append]
      refine Nat.add_le_add_left ?_ _
      simp [totalTokens]
    have haput : aput tok block [t] =
        { block with current_memory := block.current_memory ++ [renderMessage t] } := by
      rw [aput]
      simp only [List.map_cons, List.map_nil]
      rw [evict_of_le tok block.token_limit _ hstep]
    rw [flushLoop, if_pos hcond, haput]
    have hfit2 : totalTokens tok
        ((block.current_memory ++ [renderMessage t]) ++ ts.map renderMessage) ≤
        block.token_limit := by
      rw [List.append_assoc]
      simpa using hfit
    have := flushLoop_flushes_all tok threshold ts
      { block with current_memory := block.current_memory ++ [renderMessage t] }
      (fun m hm => hall m (List.mem_cons_of_mem t hm)) hfit2
    rw [this]
    simp

theorem flushLoop_budget (tok : String → Nat) (threshold : ℚ) (h0 : 0 ≤ threshold) :
    ∀ (live : List ChatMessage) (block : BlockState),
      (liveCost tok (flushLoop tok threshold block live).live : ℚ) ≤ threshold
  | [], block => by simpa [flushLoop, liveCost] using h0
  | t :: ts, block => by
    rw [flushLoop]
    by_cases h : (liveCost tok (t :: ts) : ℚ) > threshold
    · simpa [h] using flushLoop_budget tok threshold h0 ts (aput tok block [t])
    · simpa [h] using le_of_not_lt h

/-!
Claim theorems.
-/

/-- C1: after every `_aput` call on a `CondensedMemoryBlock`, the total
token cost of the stored strings is at most `token_limit` (the code in
fact enforces the bound unconditionally — the eviction loop also drops
a single oversized entry — so the claim's allowed edge-case excess
never occurs), and eviction removes entries from the oldest end: the
post-state is a suffix (a `drop`) of the appended sequence. -/
theorem condensation_bound_after_aput (tok : String → Nat) (st : BlockState)
    (msgs : List ChatMessage) :
    totalTokens tok (aput tok st msgs).current_memory ≤ st.token_limit ∧
      ∃ k, (aput tok st msgs).current_memory =
        (st.current_memory ++ msgs.map renderMessage).drop k :=
  ⟨evict_total_le tok st.token_limit _, evict_eq_drop tok st.token_limit _⟩

/-- C2 counterexample: with `token_limit = 10` and a single turn whose
rendered form costs 50 tokens, `_aput` on an empty block does NOT leave
that one entry in the block — the eviction loop removes it too, and the
block ends empty, contradicting the claim. -/
theorem oversized_entry_kept_claim_false :
    lenTok (renderMessage oversizedMsg) = 50 ∧
      (aput lenTok ⟨[], 10⟩ [oversizedMsg]).current_memory ≠
        [renderMessage oversizedMsg] ∧
      (aput lenTok ⟨[], 10⟩ [oversizedMsg]).current_memory = [] := by
  refine ⟨by decide, by decide, by decide⟩

/-- C2 amended: if a single turn's rendered form alone exceeds
`token_limit`, then after flushing it into an otherwise empty block via
`_aput` the block is empty — the entry is appended whole (never
truncated) but then evicted by the trimming loop; no error is raised
(`_aput` is total). -/
theorem oversized_entry_evicted (tok : String → Nat) (limit : Nat) (m : ChatMessage)
    (h : tok (renderMessage m) > limit) :
    (aput tok ⟨[], limit⟩ [m]).current_memory = [] := by
  rw [aput]
  simp only [List.map_cons, List.map_nil, List.nil_append]
  rw [evict, if_pos (by simpa [totalTokens] using h)]
  rfl

/-- Witness for the amended C2 at the concrete oversized input. -/
theorem oversized_entry_evicted_witness :
    lenTok (renderMessage oversizedMsg) > 10 ∧
      (aput lenTok ⟨[], 10⟩ [oversizedMsg]).current_memory = [] :=
  ⟨by decide, oversized_entry_evicted lenTok 10 oversizedMsg (by decide)⟩

/-- C3: eviction is FIFO — the strings removed by an `_aput` call leave
in chronological insertion order (they are a `take` of the stored
sequence, oldest first) and the survivors are the corresponding `drop`,
so the surviving entries keep their original relative order. -/
theorem eviction_fifo_order (tok : String → Nat) (st : BlockState)
    (msgs : List ChatMessage) :
    ∃ k,
      evictTrace tok st.token_limit (st.current_memory ++ msgs.map renderMessage) =
        ((st.current_memory ++ msgs.map renderMessage).take k,
          (st.current_memory ++ msgs.map renderMessage).drop k) ∧
      (aput tok st msgs).current_memory =
        (st.current_memory ++ msgs.map renderMessage).drop k := by
  obtain ⟨k, hk⟩ :=
    evictTrace_eq_take_drop tok st.token_limit (st.current_memory ++ msgs.map renderMessage)
  refine ⟨k, hk, ?_⟩
  have h2 := evictTrace_snd tok st.token_limit (st.current_memory ++ msgs.map renderMessage)
  rw [aput, ← h2, hk]

/-- C4 counterexample: a tokenizer that raises makes `_aput` propagate
the error, but the block state is NOT left as it was before the call —
the message was already appended when the tokenizer ran, so the
mutation persists; the all-or-nothing claim is false. -/
theorem tokenizer_failure_atomicity_false :
    (aputE failTok ⟨[], 50000⟩ [oversizedMsg]).1 = true ∧
      (aputE failTok ⟨[], 50000⟩ [oversizedMsg]).2 ≠ (⟨[], 50000⟩ : BlockState) ∧
      (aputE failTok ⟨[], 50000⟩ [oversizedMsg]).2.current_memory =
        [renderMessage oversizedMsg] := by
  refine ⟨by decide, by decide, by decide⟩

/-- C4 amended: if the tokenizer fails on some stored string during an
`_aput` call, the error is propagated, but the call leaves
`current_memory` holding the old entries plus every newly rendered
message — the appends all happen before the first tokenizer call and
are not rolled back; only the eviction phase is skipped. -/
theorem tokenizer_failure_keeps_appended (tok : String → Option Nat)
    (st : BlockState) (msgs : List ChatMessage)
    (h : ∃ s ∈ st.current_memory ++ msgs.map renderMessage, tok s = none) :
    aputE tok st msgs =
      (true, { st with current_memory := st.current_memory ++ msgs.map renderMessage }) := by
  rw [aputE]
  rw [evictE_of_fail tok st.token_limit _ h]

/-- Witness for the amended C4: the failing tokenizer on one appended
message leaves that message stored. -/
theorem tokenizer_failure_keeps_appended_witness :
    aputE failTok ⟨[], 50000⟩ [oversizedMsg] =
      (true, ⟨[renderMessage oversizedMsg], 50000⟩) :=
  tokenizer_failure_keeps_appended failTok ⟨[], 50000⟩ [oversizedMsg]
    ⟨renderMessage oversizedMsg, by simp, rfl⟩

/-- C5: per flushed message, `_aput` appends exactly one string, and
that string is the canonical form the spec describes (role tag,
newline-joined text when non-empty, kwargs with `session_id` filtered
when any remain, closing tag): the code's append phase is exactly
`map canonicalForm`. -/
theorem aput_appends_canonical_form (tok : String → Nat) (st : BlockState)
    (msgs : List ChatMessage) :
    (aput tok st msgs).current_memory =
      evict tok st.token_limit (st.current_memory ++ msgs.map canonicalForm) ∧
      msgs.map canonicalForm = msgs.map renderMessage := by
  have hmap : msgs.map renderMessage = msgs.map canonicalForm :=
    List.map_congr_left fun m _ => renderMessage_eq_canonicalForm m
  exact ⟨by rw [aput, hmap], hmap.symm⟩

/-- C6: `_aget` is a pure, idempotent read — it leaves the block state
unchanged and a second call with no intervening `_aput` returns the
identical string. -/
theorem aget_pure_idempotent (st : BlockState) :
    (agetS st).2 = st ∧ (agetS (agetS st).2).1 = (agetS st).1 :=
  ⟨rfl, rfl⟩

/-- C7 (round trip): appending the four scenario turns and flushing
with a threshold `ratio × token_limit` below every turn's cost (the
"near zero" ratio) moves all four turns into the Condensation Block in
order; `render` then returns exactly one synthetic condensation turn —
whose text is the four canonical rendered strings newline-joined, in
append order — followed by zero live turns. -/
theorem roundtrip_flush_all_condensed (tok : String → Nat) (ratio : ℚ)
    (sessionLimit blockLimit : Nat)
    (hall : ∀ m ∈ msgsLogan, ratio * (sessionLimit : ℚ) < (turnCost tok m : ℚ))
    (hfit : totalTokens tok (msgsLogan.map renderMessage) ≤ blockLimit) :
    flushSession tok ratio sessionLimit (appendSession ⟨[], ⟨[], blockLimit⟩⟩ msgsLogan) =
        ⟨[], ⟨msgsLogan.map renderMessage, blockLimit⟩⟩ ∧
      renderSession (flushSession tok ratio sessionLimit
          (appendSession ⟨[], ⟨[], blockLimit⟩⟩ msgsLogan)) =
        [RenderedItem.condensed (String.intercalate "\n" (msgsLogan.map renderMessage))] := by
  have h := flushLoop_flushes_all tok (ratio * (sessionLimit : ℚ)) msgsLogan
    ⟨[], blockLimit⟩ hall (by simpa using hfit)
  have hflush : flushSession tok ratio sessionLimit
      (appendSession ⟨[], ⟨[], blockLimit⟩⟩ msgsLogan) =
      ⟨[], ⟨msgsLogan.map renderMessage, blockLimit⟩⟩ := by
    rw [flushSession, appendSession]
    simpa using h
  refine ⟨hflush, ?_⟩
  rw [hflush, renderSession]
  simp [msgsLogan, agetS]

/-- Witness for C7 with the notebook's configuration
(`chat_history_token_ratio = 1/10000`, session `token_limit = 60000`,
block `token_limit = 50000`) and a per-character tokenizer. -/
theorem roundtrip_flush_all_condensed_witness :
    flushSession lenTok (1/10000) 60000 (appendSession ⟨[], ⟨[], 50000⟩⟩ msgsLogan) =
        ⟨[], ⟨msgsLogan.map renderMessage, 50000⟩⟩ ∧
      renderSession (flushSession lenTok (1/10000) 60000
          (appendSession ⟨[], ⟨[], 50000⟩⟩ msgsLogan)) =
        [RenderedItem.condensed (String.intercalate "\n" (msgsLogan.map renderMessage))] :=
  roundtrip_flush_all_condensed lenTok (1/10000) 60000 50000
    (by
      have hall : ∀ m ∈ msgsLogan, 66 ≤ turnCost lenTok m := by decide
      intro m hm
      have h := hall m hm
      calc (1/10000 : ℚ) * ((60000 : Nat) : ℚ) < ((66 : Nat) : ℚ) := by norm_num
        _ ≤ (turnCost lenTok m : ℚ) := by exact_mod_cast h)
    (by decide)

/-- C8: after `flush`, the live window's total token cost is at most
`chat_history_token_ratio × token_limit` (for any non-negative ratio);
in particular `flush` always returns the session to `UNDER_BUDGET`. -/
theorem flush_restores_budget (tok : String → Nat) (ratio : ℚ) (limit : Nat)
    (s : Session) (h0 : 0 ≤ ratio) :
    (liveCost tok (flushSession tok ratio limit s).live : ℚ) ≤ ratio * (limit : Nat) :=
  flushLoop_budget tok (ratio * (limit : Nat))
    (mul_nonneg h0 (Nat.cast_nonneg limit)) s.live s.block

/-- Witness for C8 at a concrete over-budget session. -/
theorem flush_restores_budget_witness :
    (0 : ℚ) ≤ 1/10000 ∧
      (liveCost lenTok
          (flushSession lenTok (1/10000) 60000 ⟨msgsLogan, ⟨[], 50000⟩⟩).live : ℚ) ≤
        (1/10000) * ((60000 : Nat) : ℚ) :=
  ⟨by norm_num,
    flush_restores_budget lenTok (1/10000) 60000 ⟨msgsLogan, ⟨[], 50000⟩⟩ (by norm_num)⟩

/-- C9: the eviction loop of `_aput` terminates for every input — the
loop with an iteration budget equal to the list's length (each
iteration removes exactly the oldest entry) already reaches the fixed
point computed by the loop, so at most `length` iterations run and the
operation is total for any total tokenizer. -/
theorem eviction_loop_terminates_in_length_steps (tok : String → Nat) (limit : Nat) :
    ∀ l : List String, evictFuel tok limit l.length l = some (evict tok limit l)
  | [] => by
    rw [List.length_nil, evictFuel, evict]
    simp [totalTokens]
  | x :: xs => by
    rw [List.length_cons, evictFuel, evict]
    by_cases h : totalTokens tok (x :: xs) > limit
    · simpa [h] using eviction_loop_terminates_in_length_steps tok limit xs
    · simp [h]

/-- C10: only text blocks contribute to the rendered string — filtering
the message's blocks to its text blocks leaves the rendering unchanged
(non-text blocks are silently omitted) — and of the auxiliary data
exactly the key `session_id` is removed: the surviving keys are
precisely the original keys other than `session_id`, in order. -/
theorem text_blocks_only_and_session_id_filtered (m : ChatMessage) :
    renderMessage
        { m with blocks := m.blocks.filter isTextBlock } = renderMessage m ∧
      (filteredKwargs m).map Prod.fst =
        (m.additional_kwargs.map Prod.fst).filter (fun k => k ≠ "session_id") ∧
      "session_id" ∉ (filteredKwargs m).map Prod.fst := by
  refine ⟨?_, ?_, ?_⟩
  · rw [renderMessage, renderMessage]
    have ht : textContents { m with blocks := m.blocks.filter isTextBlock } =
        textContents m := by
      rw [textContents, textContents]
      exact congrArg _ (filterMap_textOf_filter m.blocks)
    have hk : filteredKwargs { m with blocks := m.blocks.filter isTextBlock } =
        filteredKwargs m := rfl
    rw [ht, hk]
  · exact filteredKwargs_keys m.additional_kwargs
  · intro hmem
    have h2 : "session_id" ∈
        (m.additional_kwargs.map Prod.fst).filter (fun k => k ≠ "session_id") := by
      rw [← filteredKwargs_keys m.additional_kwargs]
      exact hmem
    have := List.of_mem_filter h2
    simp at this

/-- Instantiation of C10 at a concrete message with a non-text block
and a `session_id` kwarg. -/
theorem text_blocks_only_and_session_id_filtered_witness :
    renderMessage
        { toolMsg with blocks := toolMsg.blocks.filter isTextBlock } =
          renderMessage toolMsg ∧
      (filteredKwargs toolMsg).map Prod.fst =
        (toolMsg.additional_kwargs.map Prod.fst).filter (fun k => k ≠ "session_id") ∧
      "session_id" ∉ (filteredKwargs toolMsg).map Prod.fst :=
  text_blocks_only_and_session_id_filtered toolMsg

end CondensedMemory
